import Mathlib

/-!
Verification of the OpenChamber desktop core (Rust, `packages/desktop/src-tauri/src`)
against its natural-language specification.

The Rust code is shallowly embedded: strings are modelled as `List Char`,
JSON values as a small inductive `Json`, hash maps / hash sets as association
lists / lists, and the stateful handlers as pure state-passing functions.
Real-time durations (750 ms, 2 s, 5 min, ...) are modelled as abstract data
(timer-expiry events, numeric timestamps); Unicode-aware character classes of
the Rust code (`\s`, `char::is_whitespace`, `to_uppercase`) are modelled on
their ASCII fragment, which is the fragment every claim exercises.
-/

namespace OpenChamber

/-! ## Generic helpers over `List Char` -/

/-- ASCII fragment of the Rust regex class `\s` / `char::is_whitespace`. -/
def isWsChar (c : Char) : Bool :=
  c = ' ' || c = '\t' || c = '\n' || c = '\r' || c = Char.ofNat 11 || c = Char.ofNat 12

/-- Rust `str::trim_start`: drop all leading whitespace characters. -/
def trimStartChars (s : List Char) : List Char :=
  s.dropWhile isWsChar

/-! ## `OpenCodeManager::rewrite_path` (opencode_manager.rs, lines 236-249)

The Rust code is
`incoming_path.strip_prefix("/api").map(|rest| if rest.is_empty() { "/" } else { rest }).unwrap_or(incoming_path)`.
`stripPre pat s` is Rust's `str::strip_prefix`: `some rest` iff `s = pat ++ rest`. -/

def stripPre : List Char → List Char → Option (List Char)
  | [], s => some s
  | _ :: _, [] => none
  | p :: ps, c :: cs => if p = c then stripPre ps cs else none

/-- The characters of the literal `"/api"`. -/
def apiChars : List Char := ['/', 'a', 'p', 'i']

/-- `OpenCodeManager::rewrite_path`. -/
def rewrite_path (incoming_path : List Char) : List Char :=
  match stripPre apiChars incoming_path with
  | some rest => if rest = [] then ['/'] else rest
  | none => incoming_path

theorem stripPre_eq_some_iff (pat : List Char) :
    ∀ s r, stripPre pat s = some r ↔ s = pat ++ r := by
  induction pat with
  | nil => intro s r; simp [stripPre]
  | cons p ps ih =>
    intro s r
    cases s with
    | nil => simp [stripPre]
    | cons c cs =>
      by_cases h : p = c
      · subst h
        simp [stripPre, ih]
      · simp [stripPre, h, Ne.symm h]

theorem stripPre_eq_none_iff (pat s : List Char) :
    stripPre pat s = none ↔ ¬ ∃ r, s = pat ++ r := by
  constructor
  · rintro h ⟨r, rfl⟩
    have := (stripPre_eq_some_iff pat (pat ++ r) r).mpr rfl
    rw [h] at this
    exact Option.noConfusion this
  · intro h
    cases hs : stripPre pat s with
    | none => rfl
    | some r => exact absurd ⟨r, (stripPre_eq_some_iff pat s r).mp hs⟩ h

/-- C10: the catch-all proxy's path rewrite removes a leading `/api`,
maps the bare path `/api` (empty remainder) to `/`, and forwards any path
that does not start with `/api` unchanged. -/
theorem rewrite_path_spec (p : List Char) :
    (∀ rest, p = apiChars ++ rest →
        rewrite_path p = if rest = [] then ['/'] else rest) ∧
    ((¬ ∃ rest, p = apiChars ++ rest) → rewrite_path p = p) := by
  constructor
  · rintro rest rfl
    unfold rewrite_path
    rw [(stripPre_eq_some_iff apiChars (apiChars ++ rest) rest).mpr rfl]
  · intro h
    unfold rewrite_path
    rw [(stripPre_eq_none_iff apiChars p).mpr h]

/-- Witness for `rewrite_path_spec`: `/api/x` is rewritten to `/x`,
`/api` to `/`, and `/foo` is forwarded unchanged. -/
theorem rewrite_path_spec_witness :
    rewrite_path ['/', 'a', 'p', 'i', '/', 'x'] = ['/', 'x'] ∧
    rewrite_path ['/', 'a', 'p', 'i'] = ['/'] ∧
    rewrite_path ['/', 'f', 'o', 'o'] = ['/', 'f', 'o', 'o'] := by
  refine ⟨?_, ?_, ?_⟩
  · have := (rewrite_path_spec ['/', 'a', 'p', 'i', '/', 'x']).1 ['/', 'x'] rfl
    simpa using this
  · have := (rewrite_path_spec ['/', 'a', 'p', 'i']).1 [] rfl
    simpa using this
  · refine (rewrite_path_spec ['/', 'f', 'o', 'o']).2 ?_
    rintro ⟨rest, h⟩
    simp [apiChars] at h

/-! ## Notification formatting (assistant_notifications.rs, lines 231-280)

`capitalize` models the Rust helper (ASCII fragment of `char::to_uppercase`).
`splitOnSeps` models Rust `str::split(&seps)`, which keeps empty pieces;
splitting the empty string yields one empty piece. -/

/-- Models `capitalize`: uppercase the first character, keep the rest. -/
def capitalize (s : List Char) : List Char :=
  match s with
  | [] => []
  | c :: cs => c.toUpper :: cs

/-- Rust `str::split` over a set of single-character separators. -/
def splitOnSeps (seps : List Char) : List Char → List (List Char)
  | [] => [[]]
  | c :: cs =>
    if seps.contains c then [] :: splitOnSeps seps cs
    else
      match splitOnSeps seps cs with
      | [] => [[c]]
      | t :: ts => (c :: t) :: ts

/-- `format_mode`: split on `-`, `_`, space, drop empty tokens, capitalize,
join with a space; empty input gives `"Agent"`. -/
def format_mode (raw : List Char) : List Char :=
  if raw = [] then "Agent".toList
  else
    List.intercalate [' ']
      (((splitOnSeps ['-', '_', ' '] raw).filter (fun s => ¬ s.isEmpty)).map capitalize)

/-- Rust `token.chars().all(|c| c.is_ascii_digit())` (true on the empty token). -/
def allDigits (t : List Char) : Bool := t.all (fun c => c.isDigit)

/-- The token-merging scan of `format_model_id`: an all-digit token followed by
an all-digit token becomes `a.b` and the scan advances two tokens. -/
def mergeDigitTokens : List (List Char) → List (List Char)
  | [] => []
  | [t] => [t]
  | t :: t2 :: rest =>
    if allDigits t && allDigits t2 then (t ++ '.' :: t2) :: mergeDigitTokens rest
    else t :: mergeDigitTokens (t2 :: rest)

/-- `format_model_id`: split on `-`, `_` only, merge adjacent all-digit tokens,
capitalize, join with a space; empty input gives `"Assistant"`. -/
def format_model_id (raw : List Char) : List Char :=
  if raw = [] then "Assistant".toList
  else
    List.intercalate [' ']
      ((mergeDigitTokens (splitOnSeps ['-', '_'] raw)).map capitalize)

/-- C9: the notification formatting functions satisfy the four specified
equalities: `formatModelId "claude-3-5-sonnet" = "Claude 3.5 Sonnet"`,
`formatModelId "" = "Assistant"`, `formatMode "deep-research" = "Deep Research"`,
and `formatMode "" = "Agent"`. -/
theorem format_functions_spec :
    format_model_id "claude-3-5-sonnet".toList = "Claude 3.5 Sonnet".toList ∧
    format_model_id "".toList = "Assistant".toList ∧
    format_mode "deep-research".toList = "Deep Research".toList ∧
    format_mode "".toList = "Agent".toList := by
  refine ⟨?_, rfl, ?_, rfl⟩ <;> decide

/-! ## Port/prefix detection (opencode_manager.rs, lines 23-25 and 347-363)

`URL_REGEX` is `https?://[^:\s]+:(?P<port>\d+)(?P<path>/[^\s"']*)?`. For this
pattern the crate's leftmost-first semantics are deterministic: the scheme is
`http` plus an optional `s` plus `://`; the host is the maximal nonempty run of
characters outside `:`/whitespace (no shorter run can be followed by `:`); the
port is the maximal nonempty digit run; the optional path starts with `/` and
greedily takes characters outside whitespace/quotes. `findUrlMatch` scans start
positions left to right, so it returns the leftmost match. -/

/-- Character class `[^:\s]` (host characters). -/
def isHostChar (c : Char) : Bool := !(c = ':') && !(isWsChar c)

/-- Character class `[^\s"']` (path characters). -/
def isPathChar (c : Char) : Bool :=
  !(isWsChar c) && !(c = Char.ofNat 34) && !(c = Char.ofNat 39)

/-- Match `https?://` at the start of `s`, returning the remainder. -/
def matchScheme : List Char → Option (List Char)
  | 'h' :: 't' :: 't' :: 'p' :: 's' :: ':' :: '/' :: '/' :: r => some r
  | 'h' :: 't' :: 't' :: 'p' :: ':' :: '/' :: '/' :: r => some r
  | _ => none

/-- Match the whole `URL_REGEX` at the start of `s`; on success return the
captures: the digits of the `port` group and the optional `path` group. -/
def matchUrlAt (s : List Char) : Option (List Char × Option (List Char)) :=
  match matchScheme s with
  | none => none
  | some r1 =>
    let host := r1.takeWhile isHostChar
    let r2 := r1.dropWhile isHostChar
    if host = [] then none
    else
      match r2 with
      | ':' :: r3 =>
        let digits := r3.takeWhile Char.isDigit
        let r4 := r3.dropWhile Char.isDigit
        if digits = [] then none
        else
          let path : Option (List Char) :=
            match r4 with
            | '/' :: _ => some (r4.takeWhile isPathChar)
            | _ => none
          some (digits, path)
      | _ => none

/-- Leftmost match of `URL_REGEX` in a line (`Regex::captures`). -/
def findUrlMatch : List Char → Option (List Char × Option (List Char))
  | [] => none
  | c :: rest =>
    match matchUrlAt (c :: rest) with
    | some m => some m
    | none => findUrlMatch rest

/-- Value of a digit string, as read by Rust's `str::parse`. -/
def digitsVal (ds : List Char) : Nat :=
  ds.foldl (fun acc c => acc * 10 + (c.toNat - '0'.toNat)) 0

/-- Rust `str::parse::<u16>` on the (nonempty) digit capture: fails on
overflow past `u16::MAX`. -/
def parseU16 (ds : List Char) : Option Nat :=
  if digitsVal ds ≤ 65535 then some (digitsVal ds) else none

/-- The supervisor fields `ingest_output_line` can mutate. -/
structure MgrState where
  port : Option Nat
  apiPfx : List Char
  deriving DecidableEq, Repr

/-- `OpenCodeManager::ingest_output_line`: on a regex match, store the parsed
port (if it parses as `u16`) and store the path group as the API prefix when
it is nonempty and not `/`. -/
def ingest_output_line (st : MgrState) (line : List Char) : MgrState :=
  match findUrlMatch line with
  | none => st
  | some (digits, path) =>
    let st1 :=
      match parseU16 digits with
      | some p => { st with port := some p }
      | none => st
    match path with
    | some v => if !v.isEmpty && !(v = ['/']) then { st1 with apiPfx := v } else st1
    | none => st1

/-- One spawn generation's worth of output lines, fed in order. -/
def ingestAll (st : MgrState) (lines : List (List Char)) : MgrState :=
  lines.foldl ingest_output_line st

/-- The parseable port carried by a line, if any. -/
def linePort (line : List Char) : Option Nat :=
  match findUrlMatch line with
  | none => none
  | some (digits, _) => parseU16 digits

/-- Accumulator step: a parseable match overrides, otherwise keep. -/
def portStep (acc : Option Nat) (l : List Char) : Option Nat :=
  match linePort l with
  | some p => some p
  | none => acc

/-- The last parseable port match in a list of lines. -/
def lastPortOf (lines : List (List Char)) : Option Nat :=
  lines.foldl portStep none

theorem ingest_output_line_port (st : MgrState) (line : List Char) :
    (ingest_output_line st line).port =
      match linePort line with
      | some p => some p
      | none => st.port := by
  unfold ingest_output_line linePort
  cases h : findUrlMatch line with
  | none => rfl
  | some m =>
    obtain ⟨digits, path⟩ := m
    cases hp : parseU16 digits <;> cases path <;> simp [hp] <;> split <;> rfl

/-- C1 counterexample: with no pre-configured port, the first matching line
`http://localhost:1234` sets the detected port to 1234, but ingesting a later
matching line `http://localhost:5678` overwrites it with 5678 — the detected
port is not set at most once, and a later output line does alter it. -/
theorem ingest_port_overwritten :
    (ingestAll ⟨none, []⟩ ["http://localhost:1234".toList]).port = some 1234 ∧
    (ingestAll ⟨none, []⟩
        ["http://localhost:1234".toList, "http://localhost:5678".toList]).port
      = some 5678 ∧
    (5678 : Nat) ≠ 1234 := by
  refine ⟨?_, ?_, by decide⟩ <;> decide

theorem foldl_portStep_acc (ls : List (List Char)) :
    ∀ acc : Option Nat,
      ls.foldl portStep acc =
        match ls.foldl portStep none with
        | some p => some p
        | none => acc := by
  induction ls with
  | nil => intro acc; rfl
  | cons l ls ih =>
    intro acc
    rw [List.foldl_cons, List.foldl_cons, ih (portStep acc l), ih (portStep none l)]
    cases h : ls.foldl portStep none with
    | some p => rfl
    | none => unfold portStep; cases linePort l <;> rfl

/-- C1 amended: for a spawn generation, a line with no parseable port match
leaves the detected port unchanged, and a line with a parseable port match
overwrites it; hence after ingesting all lines the detected port is the last
parseable match of the generation (or the initial value if none matched). -/
theorem ingest_port_last_match (st : MgrState) (lines : List (List Char)) :
    (ingestAll st lines).port =
      match lastPortOf lines with
      | some p => some p
      | none => st.port := by
  induction lines generalizing st with
  | nil => rfl
  | cons l ls ih =>
    show (ingestAll (ingest_output_line st l) ls).port = _
    rw [ih]
    have hstep := ingest_output_line_port st l
    show _ = match lastPortOf (l :: ls) with
      | some p => some p
      | none => st.port
    have hcons : lastPortOf (l :: ls) =
        match lastPortOf ls with
        | some p => some p
        | none => portStep none l := by
      show ls.foldl portStep (portStep none l) = _
      exact foldl_portStep_acc ls (portStep none l)
    rw [hcons]
    unfold portStep at *
    cases hlast : lastPortOf ls with
    | some p => rfl
    | none => cases hl : linePort l <;> simp [hl] at hstep <;> simp [hstep]

/-! ## SSE frame reconstruction (assistant_notifications.rs lines 115-155,
session_activity.rs lines 131-171)

Both consumers run the same loop over the (already `\r`/`\n`-trimmed) lines of
the byte stream: a line starting with `data:` contributes its remainder after
`trim_start()`; a blank line with a nonempty accumulator emits one frame, the
accumulated payloads joined with `\n`; other lines contribute nothing; a
pending accumulator at end of stream is dropped (the loop breaks). -/

/-- Rust `line.strip_prefix("data:")`. -/
def stripDataPfx (line : List Char) : Option (List Char) :=
  match line with
  | 'd' :: 'a' :: 't' :: 'a' :: ':' :: rest => some rest
  | _ => none

/-- The consumers' accumulation loop, parameterised by how a `data:` payload is
cleaned; returns the raw string of each completed frame in order. -/
def sseCollect (clean : List Char → List Char) :
    List (List Char) → List (List Char) → List (List Char)
  | _, [] => []
  | acc, line :: rest =>
    if line.isEmpty then
      if acc.isEmpty then sseCollect clean acc rest
      else List.intercalate ['\n'] acc :: sseCollect clean [] rest
    else
      match stripDataPfx line with
      | some r => sseCollect clean (acc ++ [clean r]) rest
      | none => sseCollect clean acc rest

/-- Frame reconstruction as the code performs it: payload cleaned with
`trim_start()`, which drops every leading whitespace character. -/
def sse_frames (lines : List (List Char)) : List (List Char) :=
  sseCollect trimStartChars [] lines

/-- Drop one leading space only. -/
def stripOneSpace (s : List Char) : List Char :=
  match s with
  | ' ' :: rest => rest
  | _ => s

/-- Frame reconstruction as the specification words it: the `data:` payload is
stripped of the prefix "and one leading space only". -/
def sse_frames_specWorded (lines : List (List Char)) : List (List Char) :=
  sseCollect stripOneSpace [] lines

/-- C8 counterexample: on the single frame `data:␣␣x` followed by a blank
line, the code (which calls `trim_start()`) produces the payload `x`, while
the claimed "prefix and one leading space only" reconstruction produces `␣x`;
the two disagree, so the claim misstates the stripping rule. -/
theorem sse_trim_counterexample :
    sse_frames ["data:  x".toList, []] = ["x".toList] ∧
    sse_frames_specWorded ["data:  x".toList, []] = [" x".toList] ∧
    sse_frames ["data:  x".toList, []] ≠ sse_frames_specWorded ["data:  x".toList, []] := by
  refine ⟨by decide, by decide, by decide⟩

/-- A `data:` line used in frames: the prefix followed by a payload. -/
def mkDataLine (payload : List Char) : List Char :=
  'd' :: 'a' :: 't' :: 'a' :: ':' :: payload

theorem sseCollect_data_run (clean : List Char → List Char)
    (ds : List (List Char)) :
    ∀ acc rest, sseCollect clean acc (ds.map mkDataLine ++ rest) =
      sseCollect clean (acc ++ ds.map clean) rest := by
  induction ds with
  | nil => intro acc rest; simp
  | cons d ds ih =>
    intro acc rest
    show sseCollect clean acc (mkDataLine d :: (ds.map mkDataLine ++ rest)) = _
    have h1 : (mkDataLine d).isEmpty = false := rfl
    have h2 : stripDataPfx (mkDataLine d) = some d := rfl
    simp only [sseCollect, h1, h2, Bool.false_eq_true, if_false]
    rw [ih (acc ++ [clean d]) rest]
    simp

/-- C8 amended: a frame of consecutive `data:` lines terminated by a blank
line yields exactly one raw payload — the `data:` remainders, each with all
leading whitespace trimmed, joined by a newline — and a nonblank line without
the `data:` prefix contributes nothing to the frame. -/
theorem sse_frames_amended (ds rest : List (List Char)) (other : List Char)
    (hds : ds ≠ []) (hother : other ≠ []) (hnd : stripDataPfx other = none) :
    sse_frames (ds.map mkDataLine ++ [] :: rest) =
      List.intercalate ['\n'] (ds.map trimStartChars) :: sse_frames rest ∧
    sse_frames (ds.map mkDataLine ++ other :: [] :: rest) =
      List.intercalate ['\n'] (ds.map trimStartChars) :: sse_frames rest := by
  have hne : (ds.map trimStartChars).isEmpty = false := by
    cases ds with
    | nil => exact absurd rfl hds
    | cons d ds => rfl
  have hoe : other.isEmpty = false := by
    cases other with
    | nil => exact absurd rfl hother
    | cons c cs => rfl
  constructor
  · show sseCollect trimStartChars [] (ds.map mkDataLine ++ [] :: rest) = _
    rw [sseCollect_data_run trimStartChars ds [] ([] :: rest)]
    simp only [List.nil_append, sseCollect, List.isEmpty_nil, if_true, hne,
      Bool.false_eq_true, if_false]
    rfl
  · show sseCollect trimStartChars [] (ds.map mkDataLine ++ other :: [] :: rest) = _
    rw [sseCollect_data_run trimStartChars ds [] (other :: [] :: rest)]
    simp only [List.nil_append, sseCollect, hoe, Bool.false_eq_true, if_false,
      hnd, List.isEmpty_nil, if_true, hne]
    rfl

/-- Witness for `sse_frames_amended`: the frame `data: a` / `x` / blank yields
the single payload `a` — the non-`data:` line `x` contributed nothing. -/
theorem sse_frames_amended_witness :
    sse_frames ["data: a".toList, []] = ["a".toList] ∧
    sse_frames ["data: a".toList, "x".toList, []] = ["a".toList] := by
  have h := sse_frames_amended [" a".toList] [] "x".toList
    (by decide) (by decide) (by decide)
  exact ⟨by simpa using h.1, by simpa using h.2⟩

/-! ## JSON values and event envelopes

A small model of `serde_json::Value`, with the two accessors the consumers
use: `get` (field of an object, `None` on anything else) and `asStr`. Objects
are association lists; field lookup takes the first binding. -/

inductive Json where
  | null
  | bool (b : Bool)
  | num (n : Int)
  | str (s : String)
  | arr (xs : List Json)
  | obj (fields : List (String × Json))

/-- Field lookup in an object's binding list. -/
def fieldLookup : List (String × Json) → String → Option Json
  | [], _ => none
  | (k, v) :: rest, key => if k = key then some v else fieldLookup rest key

/-- `Value::get(key)`: field of an object, `None` otherwise. -/
def Json.get (j : Json) (key : String) : Option Json :=
  match j with
  | Json.obj fields => fieldLookup fields key
  | _ => none

/-- `Value::as_str()`. -/
def Json.asStr (j : Json) : Option String :=
  match j with
  | Json.str s => some s
  | _ => none

/-- The `{type, properties}` envelope both consumers deserialize. -/
structure EventEnvelope where
  event_type : String
  properties : Json

/-! ## Notification deduplication (assistant_notifications.rs, lines 160-229)

`notify_qualifying_id` is the chain of early returns of `handle_event`:
only a `message.updated` envelope whose `info.role` is `assistant` and whose
`info.finish` is `stop` qualifies, and it must carry an `info.id`.
`notify_handle_event` then consults the notified set; the window-focus check
(which happens after the set is updated) is the `notForeground` input. The
emitted notification is reported as the message id it is for. -/

def notify_qualifying_id (ev : EventEnvelope) : Option String :=
  if ev.event_type ≠ "message.updated" then none
  else
    match ev.properties.get "info" with
    | none => none
    | some info =>
      if ((info.get "role").bind Json.asStr).getD "" ≠ "assistant" then none
      else if (info.get "finish").bind Json.asStr ≠ some "stop" then none
      else (info.get "id").bind Json.asStr

/-- One envelope against the notified set: returns the new set and the id a
desktop notification was emitted for, if any. -/
def notify_handle_event (notified : List String) (ev : EventEnvelope)
    (notForeground : Bool) : List String × Option String :=
  match notify_qualifying_id ev with
  | none => (notified, none)
  | some mid =>
    if mid ∈ notified then (notified, none)
    else (mid :: notified, if notForeground then some mid else none)

/-- One consumer run: fold the envelopes (each with the window state at its
arrival) through the notified set, collecting emitted notification ids. -/
def notify_run (notified : List String) :
    List (EventEnvelope × Bool) → List String × List String
  | [] => (notified, [])
  | (ev, w) :: rest =>
    match notify_handle_event notified ev w with
    | (st1, none) =>
      notify_run st1 rest
    | (st1, some mid) =>
      ((notify_run st1 rest).1, mid :: (notify_run st1 rest).2)

theorem notify_handle_event_mem (notified : List String) (ev : EventEnvelope)
    (w : Bool) (x : String) (hx : x ∈ notified) :
    x ∈ (notify_handle_event notified ev w).1 := by
  unfold notify_handle_event
  split
  · exact hx
  · split
    · exact hx
    · exact List.mem_cons_of_mem _ hx

theorem notify_handle_event_emit (notified : List String) (ev : EventEnvelope)
    (w : Bool) (st' : List String) (mid : String)
    (h : notify_handle_event notified ev w = (st', some mid)) :
    mid ∉ notified ∧ st' = mid :: notified := by
  unfold notify_handle_event at h
  split at h
  · exact absurd h (by simp)
  · rename_i m hq
    split at h
    · exact absurd h (by simp)
    · rename_i hm
      cases w with
      | false => simp at h
      | true =>
        simp only [if_true, Prod.mk.injEq, Option.some.injEq] at h
        obtain ⟨h1, h2⟩ := h
        subst h2
        exact ⟨hm, h1.symm⟩

theorem notify_run_mem (evs : List (EventEnvelope × Bool)) :
    ∀ notified x, x ∈ notified → x ∈ (notify_run notified evs).1 := by
  induction evs with
  | nil => intro notified x hx; exact hx
  | cons p rest ih =>
    intro notified x hx
    obtain ⟨ev, w⟩ := p
    have hmem := notify_handle_event_mem notified ev w x hx
    unfold notify_run
    cases hh : notify_handle_event notified ev w with
    | mk st1 em =>
      rw [hh] at hmem
      cases em <;> exact ih st1 x hmem

theorem notify_run_no_emit_of_mem (evs : List (EventEnvelope × Bool)) :
    ∀ notified m, m ∈ notified → (notify_run notified evs).2.count m = 0 := by
  induction evs with
  | nil => intro notified m _; rfl
  | cons p rest ih =>
    intro notified m hm
    obtain ⟨ev, w⟩ := p
    have hmem := notify_handle_event_mem notified ev w m hm
    unfold notify_run
    cases hh : notify_handle_event notified ev w with
    | mk st1 em =>
      rw [hh] at hmem
      cases em with
      | none => exact ih st1 m hmem
      | some mid =>
        have hne : mid ≠ m := by
          intro hEq
          subst hEq
          exact (notify_handle_event_emit notified ev w st1 mid hh).1 hm
        simp only [List.count_cons, beq_iff_eq, if_neg hne, Nat.add_zero]
        exact ih st1 m hmem

/-- C5: within one consumer run, at most one desktop notification carries a
given message identifier, no matter how many duplicate qualifying events carry
it, and the notified set only grows — every identifier present at the start of
the run is still present at its end. -/
theorem notify_dedup_spec (notified : List String)
    (evs : List (EventEnvelope × Bool)) (m : String) :
    (notify_run notified evs).2.count m ≤ 1 ∧
    (∀ x, x ∈ notified → x ∈ (notify_run notified evs).1) := by
  refine ⟨?_, fun x hx => notify_run_mem evs notified x hx⟩
  induction evs generalizing notified with
  | nil => simp [notify_run]
  | cons p rest ih =>
    obtain ⟨ev, w⟩ := p
    unfold notify_run
    cases hh : notify_handle_event notified ev w with
    | mk st1 em =>
      cases em with
      | none => exact ih st1
      | some mid =>
        by_cases hEq : mid = m
        · subst hEq
          have hin : mid ∈ st1 := by
            rw [(notify_handle_event_emit notified ev w st1 mid hh).2]
            exact List.mem_cons_self _ _
          have h0 := notify_run_no_emit_of_mem rest st1 mid hin
          simp [List.count_cons, h0]
        · simp only [List.count_cons, beq_iff_eq, if_neg hEq, Nat.add_zero]
          exact ih st1

/-- An assistant `message.updated` envelope with finish reason `stop`,
carrying a message id and a session id. -/
def msgStopEnvelope (sid mid : String) : EventEnvelope :=
  ⟨"message.updated",
    Json.obj [("info", Json.obj
      [("role", Json.str "assistant"), ("finish", Json.str "stop"),
       ("id", Json.str mid), ("sessionID", Json.str sid)])]⟩

/-- A `session.status` envelope with the given status kind. -/
def statusEnvelope (sid stype : String) : EventEnvelope :=
  ⟨"session.status",
    Json.obj [("sessionID", Json.str sid),
              ("status", Json.obj [("type", Json.str stype)])]⟩

/-- Witness for `notify_dedup_spec`: feeding the same qualifying message id
twice notifies at most once, and the pre-notified id `a` stays in the set. -/
theorem notify_dedup_spec_witness :
    (notify_run ["a"]
        [(msgStopEnvelope "s" "m1", true), (msgStopEnvelope "s" "m1", true)]).2.count "m1" ≤ 1 ∧
    "a" ∈ (notify_run ["a"]
        [(msgStopEnvelope "s" "m1", true), (msgStopEnvelope "s" "m1", true)]).1 := by
  refine ⟨(notify_dedup_spec ["a"]
      [(msgStopEnvelope "s" "m1", true), (msgStopEnvelope "s" "m1", true)] "m1").1,
    (notify_dedup_spec ["a"]
      [(msgStopEnvelope "s" "m1", true), (msgStopEnvelope "s" "m1", true)] "m1").2 "a" ?_⟩
  exact List.mem_singleton.mpr rfl

/-! ## Session activity tracker (session_activity.rs, lines 176-326)

The per-session phase map and the cooldown-timer map (`cooldowns`) are
modelled as an association list of phases plus the list of sessions holding a
live (armed, unfired, unaborted) timer handle. `set_phase` is a no-op when the
phase is unchanged; otherwise it stores the phase, cancels the session's
cooldown timer when the new phase is not Cooldown, and emits one
`{sessionId, phase}` event. The 2 s expiry of an armed timer is modelled as
the `timer_fire` event, which can only act for a session whose timer is live;
an aborted (cancelled) timer never fires. -/

inductive Phase where
  | idle
  | busy
  | cooldown
  deriving DecidableEq, Repr

/-- Phase-map lookup (`HashMap::get`). -/
def lookupP : List (String × Phase) → String → Option Phase
  | [], _ => none
  | (k, v) :: rest, key => if k = key then some v else lookupP rest key

/-- Phase-map insert (`HashMap::insert`). -/
def setP : List (String × Phase) → String → Phase → List (String × Phase)
  | [], key, v => [(key, v)]
  | (k, v') :: rest, key, v =>
    if k = key then (key, v) :: rest else (k, v') :: setP rest key v

/-- Tracker state: phase map plus the sessions with a live cooldown timer. -/
structure ActState where
  phases : List (String × Phase)
  timers : List String

/-- `set_phase`: no-op on an unchanged phase; otherwise store the phase,
cancel the timer when leaving cooldown, and emit one event. -/
def set_phase (st : ActState) (sid : String) (ph : Phase) :
    ActState × List (String × Phase) :=
  if lookupP st.phases sid = some ph then (st, [])
  else
    ({ phases := setP st.phases sid ph,
       timers := if ph ≠ Phase.cooldown
                 then st.timers.filter (fun s => s ≠ sid)
                 else st.timers },
     [(sid, ph)])

/-- `handle_event` of the activity tracker: a `session.status` envelope forces
Busy on kind `busy`/`retry` and Idle otherwise; an assistant `message.updated`
with finish `stop` moves a Busy session to Cooldown and arms a fresh timer,
cancelling and replacing any prior one. -/
def activity_handle_event (st : ActState) (ev : EventEnvelope) :
    ActState × List (String × Phase) :=
  if ev.event_type = "session.status" then
    match (ev.properties.get "sessionID").bind Json.asStr,
        ((ev.properties.get "status").bind (fun s => s.get "type")).bind Json.asStr with
    | some id, some stype =>
      let ph := if stype = "busy" ∨ stype = "retry" then Phase.busy else Phase.idle
      set_phase st id ph
    | _, _ => (st, [])
  else if ev.event_type = "message.updated" then
    match ev.properties.get "info" with
    | none => (st, [])
    | some info =>
      if ((info.get "role").bind Json.asStr).getD "" ≠ "assistant" then (st, [])
      else if (info.get "finish").bind Json.asStr ≠ some "stop" then (st, [])
      else
        match (info.get "sessionID").bind Json.asStr with
        | none => (st, [])
        | some id =>
          if lookupP st.phases id = some Phase.busy then
            let r := set_phase st id Phase.cooldown
            ({ r.1 with timers := id :: r.1.timers.filter (fun s => s ≠ id) }, r.2)
          else (st, [])
  else (st, [])

/-- Expiry of the cooldown timer for `sid`: only a live timer can fire; the
fired task moves the session from Cooldown to Idle (and does nothing when the
phase has already left Cooldown). -/
def timer_fire (st : ActState) (sid : String) : ActState × List (String × Phase) :=
  if sid ∈ st.timers then
    if lookupP st.phases sid = some Phase.cooldown then
      set_phase st sid Phase.idle
    else ({ st with timers := st.timers.filter (fun s => s ≠ sid) }, [])
  else (st, [])

theorem lookupP_setP_self (m : List (String × Phase)) (k : String) (v : Phase) :
    lookupP (setP m k v) k = some v := by
  induction m with
  | nil => simp [setP, lookupP]
  | cons kv rest ih =>
    obtain ⟨k', v'⟩ := kv
    by_cases h : k' = k
    · simp [setP, h, lookupP]
    · simp [setP, h, lookupP, ih]

theorem mem_filter_ne_self (l : List String) (sid : String) :
    sid ∉ l.filter (fun s => s ≠ sid) := by
  intro h
  have := List.of_mem_filter h
  simp at this

theorem activity_stop_of_busy (st : ActState) (sid mid : String)
    (h : lookupP st.phases sid = some Phase.busy) :
    activity_handle_event st (msgStopEnvelope sid mid) =
      ({ phases := setP st.phases sid Phase.cooldown,
         timers := sid :: st.timers.filter (fun s => s ≠ sid) },
       [(sid, Phase.cooldown)]) := by
  simp [activity_handle_event, msgStopEnvelope, Json.get, fieldLookup,
    Json.asStr, set_phase, h]

theorem activity_busy_status (st : ActState) (sid : String) :
    activity_handle_event st (statusEnvelope sid "busy") =
      set_phase st sid Phase.busy := by
  simp [activity_handle_event, statusEnvelope, Json.get, fieldLookup, Json.asStr]

/-- C4: from a Busy session, an assistant message-update with finish reason
`stop` moves the session to Cooldown, emits that transition, and arms the
cooldown timer (the 2 s duration is abstracted as the `timer_fire` event,
possible only while the timer is live). If the timer then fires with no
overriding transition, the phase becomes Idle with one emitted Idle event. If
a busy status event arrives first, the session returns to Busy, the timer is
cancelled, and the expiry is permanently disabled — no Idle event can be
emitted for that cooldown cycle. -/
theorem cooldown_cycle_spec (st : ActState) (sid mid : String)
    (h : lookupP st.phases sid = some Phase.busy) :
    ∃ st1 : ActState,
      activity_handle_event st (msgStopEnvelope sid mid) = (st1, [(sid, Phase.cooldown)]) ∧
      lookupP st1.phases sid = some Phase.cooldown ∧
      sid ∈ st1.timers ∧
      (∃ st2 : ActState, timer_fire st1 sid = (st2, [(sid, Phase.idle)]) ∧
        lookupP st2.phases sid = some Phase.idle ∧ sid ∉ st2.timers) ∧
      (∃ st3 : ActState,
        activity_handle_event st1 (statusEnvelope sid "busy") = (st3, [(sid, Phase.busy)]) ∧
        lookupP st3.phases sid = some Phase.busy ∧ sid ∉ st3.timers ∧
        timer_fire st3 sid = (st3, [])) := by
  refine ⟨{ phases := setP st.phases sid Phase.cooldown,
            timers := sid :: st.timers.filter (fun s => s ≠ sid) },
    activity_stop_of_busy st sid mid h, lookupP_setP_self _ _ _,
    List.mem_cons_self _ _, ?_, ?_⟩
  · refine ⟨{ phases := setP (setP st.phases sid Phase.cooldown) sid Phase.idle,
              timers := (sid :: st.timers.filter (fun s => s ≠ sid)).filter
                (fun s => s ≠ sid) },
      ?_, lookupP_setP_self _ _ _, mem_filter_ne_self _ _⟩
    simp [timer_fire, lookupP_setP_self, set_phase]
  · refine ⟨{ phases := setP (setP st.phases sid Phase.cooldown) sid Phase.busy,
              timers := (sid :: st.timers.filter (fun s => s ≠ sid)).filter
                (fun s => s ≠ sid) },
      ?_, lookupP_setP_self _ _ _, mem_filter_ne_self _ _, ?_⟩
    · rw [activity_busy_status]
      simp [set_phase, lookupP_setP_self]
    · simp [timer_fire, mem_filter_ne_self]

/-- Witness for `cooldown_cycle_spec`, at the one-session state where `s`
is Busy with no armed timer. -/
theorem cooldown_cycle_spec_witness :
    ∃ st1 : ActState,
      activity_handle_event ⟨[("s", Phase.busy)], []⟩ (msgStopEnvelope "s" "m1")
        = (st1, [("s", Phase.cooldown)]) ∧
      lookupP st1.phases "s" = some Phase.cooldown ∧
      "s" ∈ st1.timers ∧
      (∃ st2 : ActState, timer_fire st1 "s" = (st2, [("s", Phase.idle)]) ∧
        lookupP st2.phases "s" = some Phase.idle ∧ "s" ∉ st2.timers) ∧
      (∃ st3 : ActState,
        activity_handle_event st1 (statusEnvelope "s" "busy") = (st3, [("s", Phase.busy)]) ∧
        lookupP st3.phases "s" = some Phase.busy ∧ "s" ∉ st3.timers ∧
        timer_fire st3 "s" = (st3, [])) :=
  cooldown_cycle_spec ⟨[("s", Phase.busy)], []⟩ "s" "m1" (by simp [lookupP])

/-! ## Reconnect reset (session_activity.rs, lines 289-326)

`reset_and_emit_all_phases` aborts and clears every cooldown timer, sets every
tracked session's phase to Idle, snapshots the map, and — unless the map is
empty — emits one event per snapshot entry. The snapshot is taken after the
reset, so every emitted event reports Idle, for every tracked session. -/

def reset_and_emit_all_phases (st : ActState) : ActState × List (String × Phase) :=
  let phases1 := st.phases.map (fun kv => (kv.1, Phase.idle))
  let st1 : ActState := { phases := phases1, timers := [] }
  if phases1.isEmpty then (st1, []) else (st1, phases1)

/-- C6 counterexample: resetting a tracker whose only session `s` is already
Idle still emits an event for `s` — the code emits one event per tracked
session from the post-reset snapshot, not only per session whose phase
actually changed. -/
theorem reset_emits_for_unchanged :
    lookupP [("s", Phase.idle)] "s" = some Phase.idle ∧
    reset_and_emit_all_phases ⟨[("s", Phase.idle)], []⟩ =
      (⟨[("s", Phase.idle)], []⟩, [("s", Phase.idle)]) := by
  exact ⟨by simp [lookupP], rfl⟩

/-- C6 amended: immediately before each (re)connect attempt the reset cancels
every pending cooldown timer and sets every tracked session's phase to Idle,
and emits exactly one event per tracked session — each reporting Idle — in map
order, regardless of whether that session's phase actually changed. -/
theorem reset_and_emit_spec (st : ActState) :
    (reset_and_emit_all_phases st).1.timers = [] ∧
    (∀ sid ph, lookupP st.phases sid = some ph →
      lookupP (reset_and_emit_all_phases st).1.phases sid = some Phase.idle) ∧
    (reset_and_emit_all_phases st).2.map Prod.fst = st.phases.map Prod.fst ∧
    (∀ e ∈ (reset_and_emit_all_phases st).2, e.2 = Phase.idle) := by
  have hl : ∀ (m : List (String × Phase)) sid ph, lookupP m sid = some ph →
      lookupP (m.map (fun kv => (kv.1, Phase.idle))) sid = some Phase.idle := by
    intro m
    induction m with
    | nil => intro sid ph h; simp [lookupP] at h
    | cons kv rest ih =>
      intro sid ph h
      obtain ⟨k, v⟩ := kv
      by_cases hk : k = sid
      · simp [lookupP, hk]
      · simp [lookupP, hk] at h ⊢
        exact ih sid ph h
  have hr : reset_and_emit_all_phases st =
      ({ phases := st.phases.map (fun kv => (kv.1, Phase.idle)), timers := [] },
       st.phases.map (fun kv => (kv.1, Phase.idle))) := by
    unfold reset_and_emit_all_phases
    cases st.phases with
    | nil => simp
    | cons kv rest => simp
  rw [hr]
  refine ⟨rfl, ?_, by simp, ?_⟩
  · intro sid ph h
    exact hl st.phases sid ph h
  · intro e he
    obtain ⟨kv, _, rfl⟩ := List.mem_map.mp he
    rfl

/-- Witness for `reset_and_emit_spec` at a two-session state: the Busy session
and the Idle session each get exactly one Idle event and the timer list is
cleared. -/
theorem reset_and_emit_spec_witness :
    (reset_and_emit_all_phases ⟨[("a", Phase.busy), ("b", Phase.idle)], ["a"]⟩).1.timers = [] ∧
    lookupP (reset_and_emit_all_phases
        ⟨[("a", Phase.busy), ("b", Phase.idle)], ["a"]⟩).1.phases "a" = some Phase.idle ∧
    (reset_and_emit_all_phases
        ⟨[("a", Phase.busy), ("b", Phase.idle)], ["a"]⟩).2.map Prod.fst = ["a", "b"] := by
  have h := reset_and_emit_spec ⟨[("a", Phase.busy), ("b", Phase.idle)], ["a"]⟩
  exact ⟨h.1, h.2.1 "a" Phase.busy (by simp [lookupP]), by simpa using h.2.2.1⟩

/-! ## Directory change (main.rs, lines 871-943)

`change_directory_handler` is modelled as a pure function of the supervisor
fields it reads, a filesystem oracle (`fs::metadata`), the outcome of a
requested restart, and the request payload. Paths are modelled as strings
(`PathBuf` component normalization is elided; equality is string equality).
The returned triple is the HTTP result (`Except` of a status code), the
supervisor state as mutated by `set_working_directory`, and whether
`restart()` was invoked; the restart's own effects on port/prefix/readiness
are modelled separately at the manager level. -/

/-- Rust `str::trim` (ASCII fragment): strip leading and trailing whitespace. -/
def trimChars (s : List Char) : List Char :=
  ((s.dropWhile isWsChar).reverse.dropWhile isWsChar).reverse

/-- The supervisor fields the directory-change route reads or writes. -/
structure SupState where
  working_dir : List Char
  port : Option Nat
  apiPfx : List Char
  ready : Bool
  deriving DecidableEq, Repr

/-- Result of Rust `fs::metadata`: an error, or metadata of a file or
directory. -/
inductive FsMeta where
  | missing
  | file
  | dir
  deriving DecidableEq, Repr

/-- The `{restarted, path}` part of a successful `DirectoryChangeResponse`
(`success` is always `true` there). -/
structure DirResponse where
  restarted : Bool
  path : List Char
  deriving DecidableEq, Repr

/-- `change_directory_handler`: trim the payload path; reject empty (400),
inaccessible (404) and non-directory (400) paths; when the path equals the
current working directory and a port is known, answer `{restarted:false}`
without touching anything; otherwise store the directory, restart (failure is
500), and answer `{restarted:true}`. -/
def change_directory_handler (st : SupState) (fs : List Char → FsMeta)
    (restartOk : Bool) (payloadPath : List Char) :
    Except Nat DirResponse × SupState × Bool :=
  let requested := trimChars payloadPath
  if requested = [] then (Except.error 400, st, false)
  else
    match fs requested with
    | FsMeta.missing => (Except.error 404, st, false)
    | FsMeta.file => (Except.error 400, st, false)
    | FsMeta.dir =>
      if st.working_dir = requested ∧ st.port.isSome then
        (Except.ok ⟨false, requested⟩, st, false)
      else
        let st1 := { st with working_dir := requested }
        if restartOk then (Except.ok ⟨true, requested⟩, st1, true)
        else (Except.error 500, st1, true)

/-- C2: for a validated, existing directory path equal to the current working
directory while a port is known, the handler returns `{restarted:false}`,
leaves the whole supervisor state (working directory, port, prefix, ready
flag) unchanged and invokes no restart; for any other validated directory path
it stores the new working directory, invokes a full restart and — when the
restart succeeds — returns `{restarted:true}`. -/
theorem change_directory_spec (st : SupState) (fs : List Char → FsMeta)
    (restartOk : Bool) (p : List Char) (hdir : fs (trimChars p) = FsMeta.dir)
    (hne : trimChars p ≠ []) :
    ((st.working_dir = trimChars p ∧ st.port.isSome) →
      change_directory_handler st fs restartOk p =
        (Except.ok ⟨false, trimChars p⟩, st, false)) ∧
    (¬ (st.working_dir = trimChars p ∧ st.port.isSome) → restartOk = true →
      change_directory_handler st fs restartOk p =
        (Except.ok ⟨true, trimChars p⟩, { st with working_dir := trimChars p }, true)) := by
  constructor
  · intro hsame
    simp [change_directory_handler, hne, hdir, hsame]
  · intro hdiff hok
    simp [change_directory_handler, hne, hdir, hdiff, hok]

/-- Witness for `change_directory_spec`: with working directory `/a` and a
known port, requesting `/a` is a no-restart no-op; requesting `/b` stores it
and restarts. -/
theorem change_directory_spec_witness :
    change_directory_handler ⟨['/', 'a'], some 3000, [], true⟩
        (fun _ => FsMeta.dir) true ['/', 'a'] =
      (Except.ok ⟨false, ['/', 'a']⟩, ⟨['/', 'a'], some 3000, [], true⟩, false) ∧
    change_directory_handler ⟨['/', 'a'], some 3000, [], true⟩
        (fun _ => FsMeta.dir) true ['/', 'b'] =
      (Except.ok ⟨true, ['/', 'b']⟩, ⟨['/', 'b'], some 3000, [], true⟩, true) := by
  constructor
  · have h := (change_directory_spec ⟨['/', 'a'], some 3000, [], true⟩
      (fun _ => FsMeta.dir) true ['/', 'a'] rfl (by decide)).1 ⟨by decide, by decide⟩
    simpa using h
  · have h := (change_directory_spec ⟨['/', 'a'], some 3000, [], true⟩
      (fun _ => FsMeta.dir) true ['/', 'b'] rfl (by decide)).2 (by decide) rfl
    simpa using h

/-! ## Models-metadata cache (main.rs, lines 67-71 and 456-503)

`models_metadata_handler` is modelled as a pure function of the cache, the
current instant (seconds; `MODELS_METADATA_CACHE_TTL` is 300 s) and the
outcome of the external fetch, which is only consulted on the stale path. The
fetch outcome distinguishes a transport/timeout error of `send()`, a response
with a non-success HTTP status, a body that fails JSON parsing, and success
with a payload. -/

/-- `ModelsMetadataCache`: cached payload plus fetch timestamp. -/
structure MetaCache where
  payload : Option String
  fetched_at : Option Nat
  deriving DecidableEq, Repr

/-- Outcome of the 8 s-timeout GET against the fixed external URL. -/
inductive FetchOutcome where
  | sendErr
  | statusErr
  | parseErr
  | success (payload : String)
  deriving DecidableEq, Repr

/-- The fresh-cache fast path: the cached payload when its age is under the
5-minute TTL. -/
def freshPayload (c : MetaCache) (now : Nat) : Option String :=
  match c.payload, c.fetched_at with
  | some p, some t => if now - t < 300 then some p else none
  | _, _ => none

/-- `models_metadata_handler`: serve a fresh cache without fetching; else
fetch — a send error or a parse error is 502, a non-success status serves the
stale cached payload when present (502 otherwise), and a success refreshes the
cache and serves the new payload. -/
def models_metadata_handler (c : MetaCache) (now : Nat) (fetch : FetchOutcome) :
    Except Nat String × MetaCache :=
  match freshPayload c now with
  | some p => (Except.ok p, c)
  | none =>
    match fetch with
    | FetchOutcome.sendErr => (Except.error 502, c)
    | FetchOutcome.statusErr =>
      match c.payload with
      | some p => (Except.ok p, c)
      | none => (Except.error 502, c)
    | FetchOutcome.parseErr => (Except.error 502, c)
    | FetchOutcome.success p => (Except.ok p, ⟨some p, some now⟩)

/-- C3 counterexample: with a stale cached payload present (age 400 s ≥ 300 s)
and the fetch failing in transport (`send()` error, e.g. the 8 s timeout), the
handler reports 502 instead of serving the stale payload — refuting that a
failed fetch serves the stale cached payload whenever one is present and that
502 is reported only when no cached payload exists. -/
theorem models_metadata_send_error_ignores_cache :
    (⟨some "old", some 0⟩ : MetaCache).payload = some "old" ∧
    models_metadata_handler ⟨some "old", some 0⟩ 400 FetchOutcome.sendErr =
      (Except.error 502, ⟨some "old", some 0⟩) := ⟨rfl, rfl⟩

/-- C3 amended: a cached payload under 5 minutes old is served without
fetching; otherwise the fixed external URL is fetched with the 8 s timeout; a
successful fetch refreshes the cache and its payload is served; a fetch whose
response has a non-success HTTP status serves the stale cached payload when
one is present and 502 otherwise; a transport (send) error or a body-parse
error reports 502 even when a cached payload exists. -/
theorem models_metadata_spec (c : MetaCache) (now : Nat) (f : FetchOutcome) :
    (∀ p t, c.payload = some p → c.fetched_at = some t → now - t < 300 →
      models_metadata_handler c now f = (Except.ok p, c)) ∧
    (freshPayload c now = none →
      ((f = FetchOutcome.sendErr ∨ f = FetchOutcome.parseErr) →
        models_metadata_handler c now f = (Except.error 502, c)) ∧
      (f = FetchOutcome.statusErr →
        models_metadata_handler c now f =
          (match c.payload with
           | some p => (Except.ok p, c)
           | none => (Except.error 502, c))) ∧
      (∀ p, f = FetchOutcome.success p →
        models_metadata_handler c now f = (Except.ok p, ⟨some p, some now⟩))) := by
  constructor
  · intro p t hp ht hfresh
    simp [models_metadata_handler, freshPayload, hp, ht, hfresh]
  · intro hstale
    refine ⟨?_, ?_, ?_⟩
    · rintro (rfl | rfl) <;> simp [models_metadata_handler, hstale]
    · rintro rfl
      simp [models_metadata_handler, hstale]
    · rintro p rfl
      simp [models_metadata_handler, hstale]

/-- Witness for `models_metadata_spec`: a 10 s-old cache is served as-is; a
stale cache with a non-success upstream status is served stale; a stale cache
with a successful fetch is refreshed. -/
theorem models_metadata_spec_witness :
    models_metadata_handler ⟨some "x", some 0⟩ 10 FetchOutcome.sendErr =
      (Except.ok "x", ⟨some "x", some 0⟩) ∧
    models_metadata_handler ⟨some "x", some 0⟩ 400 FetchOutcome.statusErr =
      (Except.ok "x", ⟨some "x", some 0⟩) ∧
    models_metadata_handler ⟨some "x", some 0⟩ 400 (FetchOutcome.success "y") =
      (Except.ok "y", ⟨some "y", some 400⟩) := by
  refine ⟨?_, ?_, ?_⟩
  · exact (models_metadata_spec ⟨some "x", some 0⟩ 10 FetchOutcome.sendErr).1
      "x" 0 rfl rfl (by decide)
  · have h := ((models_metadata_spec ⟨some "x", some 0⟩ 400 FetchOutcome.statusErr).2
      (by decide)).2.1 rfl
    simpa using h
  · exact ((models_metadata_spec ⟨some "x", some 0⟩ 400 (FetchOutcome.success "y")).2
      (by decide)).2.2 "y" rfl

/-! ## Config-entity deletion (opencode_config.rs, lines 483-528 and 767-794)

The two stores are modelled as a flag for the per-entity markdown file and a
`Json` value for `opencode.json`. `delete_agent`/`delete_command` follow the
source: remove the markdown file if it exists, remove the entity from the
`agent`/`command` object of the structured config if present (writing the
config back), and when neither store defined the entity, `delete_agent`
writes a `{disable: true}` override for the built-in while `delete_command`
returns an error. -/

/-- Map insert for JSON objects (`serde_json::Map::insert`). -/
def fieldSet : List (String × Json) → String → Json → List (String × Json)
  | [], key, v => [(key, v)]
  | (k, v') :: rest, key, v =>
    if k = key then (key, v) :: rest else (k, v') :: fieldSet rest key v

/-- Map remove for JSON objects (`serde_json::Map::remove`). -/
def fieldRemove (fs : List (String × Json)) (key : String) : List (String × Json) :=
  fs.filter (fun kv => kv.1 ≠ key)

/-- Set a key of an object value; leaves non-objects unchanged. -/
def objSetKey (j : Json) (key : String) (v : Json) : Json :=
  match j with
  | Json.obj fs => Json.obj (fieldSet fs key v)
  | _ => j

/-- Whether the structured store's `sec` section defines `name`. -/
def definedInSection (sec : String) (cfg : Json) (name : String) : Bool :=
  match cfg.get sec with
  | some (Json.obj fs) => (fieldLookup fs name).isSome
  | _ => false

/-- The entry the structured store's `sec` section holds for `name`. -/
def sectionEntry (sec : String) (cfg : Json) (name : String) : Option Json :=
  (cfg.get sec).bind (fun s => s.get name)

/-- The observable outcome of a delete: whether the markdown file was removed,
the final structured config, and whether it was written back. -/
structure DeleteOutcome where
  mdRemoved : Bool
  config : Json
  configWritten : Bool

/-- `delete_agent`: remove the `.md` file if it exists, remove the entity from
the config's `agent` object if present, and if neither happened write a
`{disable: true}` override for the built-in agent. -/
def delete_agent (name : String) (mdExists : Bool) (config0 : Json) : DeleteOutcome :=
  let removedJson : Bool :=
    match config0.get "agent" with
    | some (Json.obj fs) => (fieldLookup fs name).isSome
    | _ => false
  let config1 : Json :=
    match config0.get "agent" with
    | some (Json.obj fs) =>
      if (fieldLookup fs name).isSome then
        objSetKey config0 "agent" (Json.obj (fieldRemove fs name))
      else config0
    | _ => config0
  if mdExists || removedJson then
    { mdRemoved := mdExists, config := config1, configWritten := removedJson }
  else
    let base := match config1 with | Json.obj _ => config1 | _ => Json.obj []
    let base1 := if (base.get "agent").isSome then base
                 else objSetKey base "agent" (Json.obj [])
    let agentsFs := match base1.get "agent" with | some (Json.obj fs) => fs | _ => []
    { mdRemoved := false,
      config := objSetKey base1 "agent"
        (Json.obj (fieldSet agentsFs name (Json.obj [("disable", Json.bool true)]))),
      configWritten := true }

/-- `delete_command`: remove the `.md` file if it exists, remove the entity
from the config's `command` object if present; if neither store defined it,
fail with a not-found error. -/
def delete_command (name : String) (mdExists : Bool) (config0 : Json) :
    Except Unit DeleteOutcome :=
  let removedJson : Bool :=
    match config0.get "command" with
    | some (Json.obj fs) => (fieldLookup fs name).isSome
    | _ => false
  let config1 : Json :=
    match config0.get "command" with
    | some (Json.obj fs) =>
      if (fieldLookup fs name).isSome then
        objSetKey config0 "command" (Json.obj (fieldRemove fs name))
      else config0
    | _ => config0
  if mdExists || removedJson then
    Except.ok { mdRemoved := mdExists, config := config1, configWritten := removedJson }
  else Except.error ()

theorem fieldLookup_fieldSet_self (fs : List (String × Json)) (k : String) (v : Json) :
    fieldLookup (fieldSet fs k v) k = some v := by
  induction fs with
  | nil => simp [fieldSet, fieldLookup]
  | cons kv rest ih =>
    obtain ⟨k', v'⟩ := kv
    by_cases h : k' = k
    · simp [fieldSet, h, fieldLookup]
    · simp [fieldSet, h, fieldLookup, ih]

theorem fieldLookup_fieldRemove_self (fs : List (String × Json)) (k : String) :
    fieldLookup (fieldRemove fs k) k = none := by
  induction fs with
  | nil => rfl
  | cons kv rest ih =>
    obtain ⟨k', v'⟩ := kv
    by_cases h : k' = k
    · simpa [fieldRemove, h] using ih
    · simpa [fieldRemove, h, fieldLookup] using ih

theorem get_some_obj (cfg : Json) (k : String) (v : Json)
    (h : Json.get cfg k = some v) :
    ∃ fs, cfg = Json.obj fs ∧ fieldLookup fs k = some v := by
  cases cfg <;> simp [Json.get] at h ⊢
  exact h

theorem objSetKey_get_self (fs : List (String × Json)) (k : String) (v : Json) :
    Json.get (objSetKey (Json.obj fs) k v) k = some v := by
  simp [objSetKey, Json.get, fieldLookup_fieldSet_self]

theorem delete_agent_builtin (name : String) (cfg : Json)
    (hdef : definedInSection "agent" cfg name = false) :
    sectionEntry "agent" (delete_agent name false cfg).config name =
      some (Json.obj [("disable", Json.bool true)]) ∧
    (delete_agent name false cfg).mdRemoved = false ∧
    (delete_agent name false cfg).configWritten = true := by
  cases cfg with
  | obj cfs =>
    cases hga : fieldLookup cfs "agent" with
    | none =>
      refine ⟨?_, ?_, ?_⟩ <;>
        simp [delete_agent, Json.get, hga, sectionEntry, objSetKey,
          fieldLookup, fieldSet, fieldLookup_fieldSet_self]
    | some v =>
      cases v with
      | obj afs =>
        have hlk : (fieldLookup afs name).isSome = false := by
          simpa [definedInSection, Json.get, hga] using hdef
        refine ⟨?_, ?_, ?_⟩ <;>
          simp [delete_agent, Json.get, hga, hlk, sectionEntry, objSetKey,
            fieldLookup, fieldSet, fieldLookup_fieldSet_self]
      | null =>
        refine ⟨?_, ?_, ?_⟩ <;>
          simp [delete_agent, Json.get, hga, sectionEntry, objSetKey,
            fieldLookup, fieldSet, fieldLookup_fieldSet_self]
      | bool b =>
        refine ⟨?_, ?_, ?_⟩ <;>
          simp [delete_agent, Json.get, hga, sectionEntry, objSetKey,
            fieldLookup, fieldSet, fieldLookup_fieldSet_self]
      | num n =>
        refine ⟨?_, ?_, ?_⟩ <;>
          simp [delete_agent, Json.get, hga, sectionEntry, objSetKey,
            fieldLookup, fieldSet, fieldLookup_fieldSet_self]
      | str s =>
        refine ⟨?_, ?_, ?_⟩ <;>
          simp [delete_agent, Json.get, hga, sectionEntry, objSetKey,
            fieldLookup, fieldSet, fieldLookup_fieldSet_self]
      | arr xs =>
        refine ⟨?_, ?_, ?_⟩ <;>
          simp [delete_agent, Json.get, hga, sectionEntry, objSetKey,
            fieldLookup, fieldSet, fieldLookup_fieldSet_self]
  | null =>
    refine ⟨?_, ?_, ?_⟩ <;>
      simp [delete_agent, Json.get, sectionEntry, objSetKey,
        fieldLookup, fieldSet, fieldLookup_fieldSet_self]
  | bool b =>
    refine ⟨?_, ?_, ?_⟩ <;>
      simp [delete_agent, Json.get, sectionEntry, objSetKey,
        fieldLookup, fieldSet, fieldLookup_fieldSet_self]
  | num n =>
    refine ⟨?_, ?_, ?_⟩ <;>
      simp [delete_agent, Json.get, sectionEntry, objSetKey,
        fieldLookup, fieldSet, fieldLookup_fieldSet_self]
  | str s =>
    refine ⟨?_, ?_, ?_⟩ <;>
      simp [delete_agent, Json.get, sectionEntry, objSetKey,
        fieldLookup, fieldSet, fieldLookup_fieldSet_self]
  | arr xs =>
    refine ⟨?_, ?_, ?_⟩ <;>
      simp [delete_agent, Json.get, sectionEntry, objSetKey,
        fieldLookup, fieldSet, fieldLookup_fieldSet_self]

theorem delete_agent_removes (name : String) (mdExists : Bool) (cfg : Json)
    (h : mdExists = true ∨ definedInSection "agent" cfg name = true) :
    (delete_agent name mdExists cfg).mdRemoved = mdExists ∧
    definedInSection "agent" (delete_agent name mdExists cfg).config name = false := by
  by_cases hdef : definedInSection "agent" cfg name = true
  · obtain ⟨fs, hget⟩ : ∃ fs, cfg.get "agent" = some (Json.obj fs) ∧
        (fieldLookup fs name).isSome = true := by
      unfold definedInSection at hdef
      cases hg : cfg.get "agent" with
      | none => rw [hg] at hdef; exact absurd hdef (by simp)
      | some v =>
        rw [hg] at hdef
        cases v with
        | obj fs => exact ⟨fs, rfl, hdef⟩
        | null => exact absurd hdef (by simp)
        | bool b => exact absurd hdef (by simp)
        | num n => exact absurd hdef (by simp)
        | str s => exact absurd hdef (by simp)
        | arr xs => exact absurd hdef (by simp)
    obtain ⟨hget, hlk⟩ := hget
    obtain ⟨cfs, rfl, -⟩ := get_some_obj cfg "agent" (Json.obj fs) hget
    constructor
    · simp [delete_agent, hget, hlk]
    · simp [delete_agent, hget, hlk, definedInSection, objSetKey_get_self,
        fieldLookup_fieldRemove_self]
  · have hmd : mdExists = true := h.resolve_right hdef
    subst hmd
    have hdef' : definedInSection "agent" cfg name = false := by
      simpa using hdef
    constructor
    · unfold delete_agent
      cases hg : cfg.get "agent" with
      | none => simp [hg]
      | some v =>
        cases v with
        | obj afs =>
          have hlk : (fieldLookup afs name).isSome = false := by
            simpa [definedInSection, hg] using hdef'
          simp [hg, hlk]
        | null => simp [hg]
        | bool b => simp [hg]
        | num n => simp [hg]
        | str s => simp [hg]
        | arr xs => simp [hg]
    · unfold delete_agent
      cases hg : cfg.get "agent" with
      | none => simpa [hg] using hdef'
      | some v =>
        cases v with
        | obj afs =>
          have hlk : (fieldLookup afs name).isSome = false := by
            simpa [definedInSection, hg] using hdef'
          simpa [hg, hlk] using hdef'
        | null => simpa [hg] using hdef'
        | bool b => simpa [hg] using hdef'
        | num n => simpa [hg] using hdef'
        | str s => simpa [hg] using hdef'
        | arr xs => simpa [hg] using hdef'

theorem delete_command_removes (name : String) (mdExists : Bool) (cfg : Json)
    (h : mdExists = true ∨ definedInSection "command" cfg name = true) :
    ∃ out, delete_command name mdExists cfg = Except.ok out ∧
      out.mdRemoved = mdExists ∧
      definedInSection "command" out.config name = false := by
  by_cases hdef : definedInSection "command" cfg name = true
  · obtain ⟨fs, hget⟩ : ∃ fs, cfg.get "command" = some (Json.obj fs) ∧
        (fieldLookup fs name).isSome = true := by
      unfold definedInSection at hdef
      cases hg : cfg.get "command" with
      | none => rw [hg] at hdef; exact absurd hdef (by simp)
      | some v =>
        rw [hg] at hdef
        cases v with
        | obj fs => exact ⟨fs, rfl, hdef⟩
        | null => exact absurd hdef (by simp)
        | bool b => exact absurd hdef (by simp)
        | num n => exact absurd hdef (by simp)
        | str s => exact absurd hdef (by simp)
        | arr xs => exact absurd hdef (by simp)
    obtain ⟨hget, hlk⟩ := hget
    obtain ⟨cfs, rfl, -⟩ := get_some_obj cfg "command" (Json.obj fs) hget
    refine ⟨⟨mdExists,
        objSetKey (Json.obj cfs) "command" (Json.obj (fieldRemove fs name)), true⟩,
      by simp [delete_command, hget, hlk], rfl, ?_⟩
    simp [definedInSection, objSetKey_get_self, fieldLookup_fieldRemove_self]
  · have hmd : mdExists = true := h.resolve_right hdef
    subst hmd
    have hdef' : definedInSection "command" cfg name = false := by
      simpa using hdef
    refine ⟨⟨true, cfg, false⟩, ?_, rfl, hdef'⟩
    unfold delete_command
    cases hg : cfg.get "command" with
    | none => simp [hg]
    | some v =>
      cases v with
      | obj cfs2 =>
        have hlk : (fieldLookup cfs2 name).isSome = false := by
          simpa [definedInSection, hg] using hdef'
        simp [hg, hlk]
      | null => simp [hg]
      | bool b => simp [hg]
      | num n => simp [hg]
      | str s => simp [hg]
      | arr xs => simp [hg]

/-- C7 counterexample: for the command entity `lint`, defined in neither the
markdown store nor the (empty) structured store, DELETE does not write a
disable override — `delete_command` fails with a not-found error. -/
theorem delete_command_builtin_error :
    definedInSection "command" (Json.obj []) "lint" = false ∧
    delete_command "lint" false (Json.obj []) = Except.error () := ⟨rfl, rfl⟩

/-- C7 amended: DELETE removes the entity from whichever of the markdown and
structured stores define it, for agents and commands alike; when neither store
defines it, a built-in agent is explicitly disabled by writing a
`{disable: true}` override into the structured store, but a built-in command
is not — `delete_command` fails with a not-found error. -/
theorem delete_entity_spec (name : String) (mdExists : Bool) (cfg : Json) :
    ((mdExists = true ∨ definedInSection "agent" cfg name = true) →
      (delete_agent name mdExists cfg).mdRemoved = mdExists ∧
      definedInSection "agent" (delete_agent name mdExists cfg).config name = false) ∧
    ((mdExists = false ∧ definedInSection "agent" cfg name = false) →
      sectionEntry "agent" (delete_agent name mdExists cfg).config name =
        some (Json.obj [("disable", Json.bool true)]) ∧
      (delete_agent name mdExists cfg).configWritten = true) ∧
    ((mdExists = true ∨ definedInSection "command" cfg name = true) →
      ∃ out, delete_command name mdExists cfg = Except.ok out ∧
        out.mdRemoved = mdExists ∧
        definedInSection "command" out.config name = false) ∧
    ((mdExists = false ∧ definedInSection "command" cfg name = false) →
      delete_command name mdExists cfg = Except.error ()) := by
  refine ⟨delete_agent_removes name mdExists cfg, ?_, delete_command_removes name mdExists cfg, ?_⟩
  · rintro ⟨rfl, hdef⟩
    exact ⟨(delete_agent_builtin name cfg hdef).1, (delete_agent_builtin name cfg hdef).2.2⟩
  · rintro ⟨rfl, hdef⟩
    unfold delete_command
    cases hg : cfg.get "command" with
    | none => simp [hg]
    | some v =>
      cases v with
      | obj cfs =>
        have hlk : (fieldLookup cfs name).isSome = false := by
          simpa [definedInSection, hg] using hdef
        simp [hg, hlk]
      | null => simp [hg]
      | bool b => simp [hg]
      | num n => simp [hg]
      | str s => simp [hg]
      | arr xs => simp [hg]

/-- Witness for `delete_entity_spec`: against a config defining agent `a` and
command `c`, deleting defined entities removes them; the built-in agent `b`
gets a disable override while the built-in command `b` errors. -/
theorem delete_entity_spec_witness :
    definedInSection "agent"
      ((delete_agent "a" false
        (Json.obj [("agent", Json.obj [("a", Json.obj [])]),
                   ("command", Json.obj [("c", Json.obj [])])])).config) "a" = false ∧
    sectionEntry "agent"
      ((delete_agent "b" false
        (Json.obj [("agent", Json.obj [("a", Json.obj [])]),
                   ("command", Json.obj [("c", Json.obj [])])])).config) "b" =
      some (Json.obj [("disable", Json.bool true)]) ∧
    delete_command "b" false
      (Json.obj [("agent", Json.obj [("a", Json.obj [])]),
                 ("command", Json.obj [("c", Json.obj [])])]) = Except.error () := by
  refine ⟨?_, ?_, ?_⟩
  · exact ((delete_entity_spec "a" false
      (Json.obj [("agent", Json.obj [("a", Json.obj [])]),
                 ("command", Json.obj [("c", Json.obj [])])])).1
      (Or.inr (by simp [definedInSection, Json.get, fieldLookup]))).2
  · exact ((delete_entity_spec "b" false
      (Json.obj [("agent", Json.obj [("a", Json.obj [])]),
                 ("command", Json.obj [("c", Json.obj [])])])).2.1
      ⟨rfl, by simp [definedInSection, Json.get, fieldLookup]⟩).1
  · exact (delete_entity_spec "b" false
      (Json.obj [("agent", Json.obj [("a", Json.obj [])]),
                 ("command", Json.obj [("c", Json.obj [])])])).2.2.2
      ⟨rfl, by simp [definedInSection, Json.get, fieldLookup]⟩

end OpenChamber
